import Mathlib

set_option maxRecDepth 8000

/-!
Shallow embedding of the scoreCT cell-type scoring program (file scorect.py)
and verification of the specified properties of its core:
binned marker scoring, permutation p-values, gene randomization, and
per-cluster cell-type assignment.

The embedding translates the Python source into executable Lean functions.
Pandas dataframes of ranked genes become lists of records; the dictionaries
of scores and p-values become association lists keyed the way the Python
dictionaries are (insertion order preserved, keys unique in every run of the
program); Python floats for p-values become exact rationals; the ambient
random sampling of `np.random.choice` is made explicit as a list of drawn
gene lists, one per permutation iteration.
-/

namespace ScoreCT

/-- One row of the wrangled ranked-gene table produced by
`wrangle_ranked_genes`: columns `z_score`, `adj_pvals`, `gene`,
`cluster_number`.  The rank position of a row is its index within its
cluster block, exactly as in the positional slicing of the source. -/
structure RankedGeneRecord where
  cluster_number : Nat
  gene : String
  z_score : Int
  adj_pvals : Rat
deriving DecidableEq

/-- The wrangled table: rows in ranking order within each cluster block. -/
abbrev RankedGeneTable := List RankedGeneRecord

/-- The reference dataframe `ref_df`: one column (cell type) with its list
of marker genes, in column order. -/
abbrev RefMarker := List (String × List String)

/-- `dict_scores`: cluster id to (cell type to integer score), as built by
`_score_iter`. -/
abbrev ScoreDict := List (Nat × List (String × Nat))

/-- `stat_dict`: cluster id to (cell type to empirical p-value). -/
abbrev PvalDict := List (Nat × List (String × Rat))

/-- The gene column of a table. -/
def geneList (t : RankedGeneTable) : List String :=
  t.map (fun r => r.gene)

/-- `set(ranked_marker['cluster_number'])`: the distinct cluster ids. -/
def clusterList (t : RankedGeneTable) : List Nat :=
  (t.map (fun r => r.cluster_number)).dedup

/-- `ranked_marker[ranked_marker['cluster_number'] == clust]`: the rows of
one cluster, in table order. -/
def subTable (t : RankedGeneTable) (c : Nat) : RankedGeneTable :=
  t.filter (fun r => r.cluster_number == c)

/-- `bin_df = sub_df[(k * bin_size):bin_size + (k * bin_size)]` followed by
taking the gene column: the genes of bin `k`. -/
def binGenes (sub : RankedGeneTable) (bin_size k : Nat) : List String :=
  ((sub.drop (k * bin_size)).take bin_size).map (fun r => r.gene)

/-- `len(set(ms).intersection(set(ys)))`: the number of distinct elements of
`ms` occurring in `ys`. -/
def interCard (ms ys : List String) : Nat :=
  (ms.dedup.filter (fun g => decide (g ∈ ys))).length

/-- The score of one cell type (marker list `ms`) for one cluster
(row block `sub`), accumulated over the bins exactly as the `k` loop of
`_score_iter` does: bin `k` contributes
`score_list[-(1 + k)] * len(set(ms) & set(bin_k))`, where
`score_list = range(1, nb_marker / bin_size + 1)`, so the weight of bin `k`
is `nb_marker / bin_size - k`. -/
def score_cell_type (sub : RankedGeneTable) (nb_marker bin_size : Nat)
    (ms : List String) : Nat :=
  (List.range (nb_marker / bin_size)).foldl
    (fun acc k => acc + (nb_marker / bin_size - k) * interCard ms (binGenes sub bin_size k)) 0

/-- `_score_iter`: the score dictionary, one entry per distinct cluster, and
per cluster one entry per reference cell type in column order.  When
`nb_marker / bin_size = 0` the `k` loop of the source never runs, so the
inner dictionary stays empty, which the conditional reproduces. -/
def score_iter (ranked_marker : RankedGeneTable) (nb_marker : Nat)
    (ref_df : RefMarker) (bin_size : Nat) : ScoreDict :=
  (clusterList ranked_marker).map (fun c =>
    (c, if nb_marker / bin_size = 0 then []
        else ref_df.map (fun p => (p.1, score_cell_type (subTable ranked_marker c) nb_marker bin_size p.2))))

/-- `randomize_genes`: copies the table and overwrites the gene column with
the drawn genes `rd_pick` (the result of `np.random.choice`, which yields
exactly one gene per row), leaving every other field in place. -/
def randomize_genes (marker_df : RankedGeneTable) (rd_pick : List String) :
    RankedGeneTable :=
  List.zipWith (fun r g => { r with gene := g }) marker_df rd_pick

/-- Dictionary lookup with a default; the Python dictionaries this stands
for always contain the key when they are indexed. -/
def lookupD {κ α : Type} [BEq κ] (d : List (κ × α)) (k : κ) (dflt : α) : α :=
  match d.find? (fun p => p.1 == k) with
  | some p => p.2
  | none => dflt

/-- `dict[clust][ct]` on a score dictionary. -/
def getScore (d : ScoreDict) (c : Nat) (ct : String) : Nat :=
  lookupD (lookupD d c []) ct 0

/-- The score of pair `(c, ct)` after one randomization drawing the gene
list `d`: `_score_iter(randomize_genes(ranked_marker, gene_list), ...)`
indexed at `[clust][ct]`. -/
def permuted_score (t : RankedGeneTable) (nb_marker bin_size : Nat)
    (ref_df : RefMarker) (d : List String) (c : Nat) (ct : String) : Nat :=
  getScore (score_iter (randomize_genes t d) nb_marker ref_df bin_size) c ct

/-- The counter `count_dict[clust][ct]` accumulated over the permutation
iterations: one increment per iteration whose randomized score is at least
the observed score `obs`.  The source runs the iteration loop outermost and
updates all counters in each round; as each counter is touched exactly once
per round by an independent increment, accumulating one counter over the
whole list of draws is the same computation. -/
def count_for (t : RankedGeneTable) (nb_marker bin_size : Nat)
    (ref_df : RefMarker) (obs : Nat) (c : Nat) (ct : String)
    (draws : List (List String)) : Nat :=
  draws.foldl (fun n d => if obs ≤ permuted_score t nb_marker bin_size ref_df d c ct then n + 1 else n) 0

/-- `stat_dict`: the counters divided by the number of iterations
(`float(count) / random_sampling`), with the dictionary structure of
`ref_score`. -/
def permutation_pvalues (t : RankedGeneTable) (nb_marker bin_size : Nat)
    (ref_df : RefMarker) (draws : List (List String)) : PvalDict :=
  (score_iter t nb_marker ref_df bin_size).map (fun cr =>
    (cr.1, cr.2.map (fun cs =>
      (cs.1, (count_for t nb_marker bin_size ref_df cs.2 cr.1 cs.1 draws : ℚ) / (draws.length : ℚ)))))

/-- `min(pval_dict[cluster].values())`: the least value of the row, found
the way Python `min` scans an iterable.  Python `min` raises on an empty
dictionary; the `[]` case below is never reached by the program. -/
def minVal : List (String × Rat) → Rat
  | [] => 0
  | p :: r => r.foldl (fun m q => if q.2 < m then q.2 else m) p.2

/-- `len({key for key, value in row if value == min_value})`: the number of
cell types tied at `m`.  Dictionary keys are unique, so the set
comprehension of the source has one element per matching entry. -/
def tiedCount (row : List (String × Rat)) (m : Rat) : Nat :=
  (row.filter (fun p => decide (p.2 = m))).length

/-- `max(score_row, key=score_row.get)`: the first key attaining the
maximal value (Python `max` keeps the earlier element on ties). -/
def argmaxKey : List (String × Nat) → String
  | [] => ""
  | p :: r => (r.foldl (fun best q => if best.2 < q.2 then q else best) p).1

/-- `min(pval_row, key=pval_row.get)`: the first key attaining the minimal
value. -/
def argminKey : List (String × Rat) → String
  | [] => ""
  | p :: r => (r.foldl (fun best q => if q.2 < best.2 then q else best) p).1

/-- The per-cluster body of the loop of `assign_celltypes`: threshold check
with strict `>`, then the tie test on the p-value dictionary, then either
the maximal-score key of the whole score dictionary of the cluster or the
minimal-p-value key. -/
def assign_type (pvalRow : List (String × Rat)) (scoreRow : List (String × Nat))
    (pval_thrsh : Rat) : String :=
  let min_value := minVal pvalRow
  if min_value > pval_thrsh then "NA"
  else if 1 < tiedCount pvalRow min_value then argmaxKey scoreRow
  else argminKey pvalRow

/-- `assign_celltypes` over the stored dictionaries: one assignment per
cluster of the p-value dictionary, in order. -/
def assign_celltypes (pval_dict : PvalDict) (score_dict : ScoreDict)
    (pval_thrsh : Rat) : List (Nat × String) :=
  pval_dict.map (fun cr => (cr.1, assign_type cr.2 (lookupD score_dict cr.1 []) pval_thrsh))

/-- The `rank_genes_groups` artifact as `score_clusters` consumes it: the
wrangled ranked table it gives rise to, the number of retained markers
(`len(anndata.uns['rank_genes_groups']['names'])`), and the clustering key
(`params.groupby`). -/
structure RankGenesGroups where
  table : RankedGeneTable
  nb_marker : Nat
  groupby : String
deriving DecidableEq

/-- The `scoreCT` result slot written into `anndata.uns`. -/
structure ScoreCTResult where
  pval_dict : PvalDict
  score_dict : ScoreDict
  clustering : String
deriving DecidableEq

/-- The slice of the Anndata object that `score_clusters` reads and
writes: the column names of `.obs` and the two `.uns` slots. -/
structure AnnData where
  obs_columns : List String
  rank_genes_groups : Option RankGenesGroups
  scoreCT : Option ScoreCTResult
deriving DecidableEq

/-- The error string returned by `score_clusters` when a prerequisite is
missing; the specification names this failure `MissingPrerequisiteError`. -/
def missingPrereqMsg : String :=
  "Error: No clustering solution OR gene ranking found. Please perform scanpy.tl.louvain or scanpy.tl.leiden for clustering, and sc.tl.rank_genes_groups for differential gene expression."

/-- `score_clusters`: the guard is the literal translation of
`not (not ('louvain' not in anndata.obs) or not ('leiden' not in anndata.obs)) or 'rank_genes_groups' not in anndata.uns`.
On success the function computes the observed scores and the permutation
p-values and writes them into the `scoreCT` slot; the error return of the
source is modelled as `Except.error` and the in-place update as the
returned updated object.  The second `none` branch is unreachable: the
guard has already required the ranking to be present. -/
def score_clusters (ad : AnnData) (ref_df : RefMarker) (bin_size : Nat)
    (draws : List (List String)) : Except String AnnData :=
  if (¬ (¬ ("louvain" ∉ ad.obs_columns) ∨ ¬ ("leiden" ∉ ad.obs_columns))) ∨
      ad.rank_genes_groups = none then
    Except.error missingPrereqMsg
  else
    match ad.rank_genes_groups with
    | none => Except.error missingPrereqMsg
    | some rg =>
      let ref_score := score_iter rg.table rg.nb_marker ref_df bin_size
      let stat_dict := permutation_pvalues rg.table rg.nb_marker bin_size ref_df draws
      Except.ok { ad with scoreCT := some ⟨stat_dict, ref_score, rg.groupby⟩ }

end ScoreCT

namespace ScoreCT

/-! ### Helper lemmas on the assignment resolver -/

/-- The fold underlying `argmaxKey` returns an element of the list whose
value bounds every value in the list (Python `max` with a key). -/
lemma argmax_foldl_spec (r : List (String × Nat)) (p : String × Nat) :
    (r.foldl (fun best q => if best.2 < q.2 then q else best) p) ∈ p :: r ∧
    p.2 ≤ (r.foldl (fun best q => if best.2 < q.2 then q else best) p).2 ∧
    ∀ q ∈ r, q.2 ≤ (r.foldl (fun best q => if best.2 < q.2 then q else best) p).2 := by
  induction r generalizing p with
  | nil => simp
  | cons a r ih =>
    simp only [List.foldl_cons]
    by_cases hc : p.2 < a.2
    · rw [if_pos hc]
      obtain ⟨hmem, hle, hall⟩ := ih a
      refine ⟨List.mem_cons_of_mem p hmem, le_trans (le_of_lt hc) hle, ?_⟩
      intro q hq
      rcases List.mem_cons.mp hq with h | h
      · subst h; exact hle
      · exact hall q h
    · rw [if_neg hc]
      obtain ⟨hmem, hle, hall⟩ := ih p
      refine ⟨?_, hle, ?_⟩
      · rcases List.mem_cons.mp hmem with h | h
        · exact List.mem_cons.mpr (Or.inl h)
        · exact List.mem_cons.mpr (Or.inr (List.mem_cons.mpr (Or.inr h)))
      · intro q hq
        rcases List.mem_cons.mp hq with h | h
        · subst h; exact le_trans (le_of_not_lt hc) hle
        · exact hall q h

/-- `argmaxKey` names an entry of a nonempty score row whose score is
maximal over the whole row. -/
lemma argmaxKey_spec (sr : List (String × Nat)) (h : sr ≠ []) :
    ∃ s, (argmaxKey sr, s) ∈ sr ∧ ∀ q ∈ sr, q.2 ≤ s := by
  match sr with
  | [] => exact absurd rfl h
  | p :: r =>
    obtain ⟨hmem, hle, hall⟩ := argmax_foldl_spec r p
    refine ⟨(r.foldl (fun best q => if best.2 < q.2 then q else best) p).2, ?_, ?_⟩
    · simpa [argmaxKey] using hmem
    · intro q hq
      rcases List.mem_cons.mp hq with hEq | hMem
      · subst hEq; exact hle
      · exact hall q hMem

/-! ### Claim C1 -/

/-- Claim C1, counterexample: with three cell types where A and B are tied
at the minimal p-value 1/50 (below the threshold 1/10) with scores 10 and
15, and C has the non-minimal p-value 1/2 but the largest score 100, the
resolver assigns C.  The assigned cell type is not in the tied set, so the
tie is not broken among exactly the tied cell types, refuting the claim as
stated. -/
theorem tie_break_counterexample :
    minVal [("A", mkRat 1 50), ("B", mkRat 1 50), ("C", mkRat 1 2)] = mkRat 1 50 ∧
    ¬ (mkRat 1 50 > mkRat 1 10) ∧
    tiedCount [("A", mkRat 1 50), ("B", mkRat 1 50), ("C", mkRat 1 2)] (mkRat 1 50) = 2 ∧
    ([("A", mkRat 1 50), ("B", mkRat 1 50), ("C", mkRat 1 2)].filter
        (fun p => decide (p.2 = mkRat 1 50))).map Prod.fst = ["A", "B"] ∧
    lookupD [("A", mkRat 1 50), ("B", mkRat 1 50), ("C", mkRat 1 2)] "C" 0 = mkRat 1 2 ∧
    assign_celltypes
        [(0, [("A", mkRat 1 50), ("B", mkRat 1 50), ("C", mkRat 1 2)])]
        [(0, [("A", 10), ("B", 15), ("C", 100)])]
        (mkRat 1 10) = [(0, "C")] := by
  decide

/-- Claim C1, amended: when the minimal p-value passes the threshold test
and more than one cell type is tied at it, the resolver assigns
`argmaxKey` of the whole score row of the cluster, that is the cell type of
maximal raw score among all cell types, not only the tied ones; with a
nonempty score row the assigned key indeed carries a score bounding every
score in the row.  In the spec scenario of exactly two cell types tied at
p-value 1/50 with scores 10 and 15 these notions coincide and the cell
type with score 15 is assigned (see the witness). -/
theorem tie_break_max_over_all (pr : List (String × Rat))
    (sr : List (String × Nat)) (thr : Rat)
    (hthr : ¬ (minVal pr > thr)) (htie : 1 < tiedCount pr (minVal pr)) :
    assign_type pr sr thr = argmaxKey sr ∧
    (sr ≠ [] → ∃ s, (argmaxKey sr, s) ∈ sr ∧ ∀ q ∈ sr, q.2 ≤ s) := by
  constructor
  · simp only [assign_type]
    rw [if_neg hthr, if_pos htie]
  · exact argmaxKey_spec sr

/-- Witness for the amended claim C1 at the spec scenario: two cell types
tied at p-value 1/50 with scores 10 and 15; the resolver assigns B, the
cell type with score 15. -/
theorem tie_break_max_over_all_witness :
    (¬ (minVal [("A", mkRat 1 50), ("B", mkRat 1 50)] > mkRat 1 10)) ∧
    1 < tiedCount [("A", mkRat 1 50), ("B", mkRat 1 50)]
        (minVal [("A", mkRat 1 50), ("B", mkRat 1 50)]) ∧
    assign_type [("A", mkRat 1 50), ("B", mkRat 1 50)] [("A", 10), ("B", 15)]
        (mkRat 1 10) = "B" := by
  refine ⟨by decide, by decide, ?_⟩
  have h := tie_break_max_over_all
    [("A", mkRat 1 50), ("B", mkRat 1 50)] [("A", 10), ("B", 15)]
    (mkRat 1 10) (by decide) (by decide)
  exact h.1.trans (by decide)

/-! ### Claim C2 -/

/-- Claim C2, counterexample: a cluster with a single cell type A at
p-value 1/10 and threshold exactly 1/10 is assigned A, not NA: the strict
comparison `min_value > pval_thrsh` fails at equality, so the NA branch is
not taken, refuting the claim that such a cluster receives NA. -/
theorem threshold_boundary_counterexample :
    minVal [("A", mkRat 1 10)] = mkRat 1 10 ∧
    assign_celltypes [(0, [("A", mkRat 1 10)])] [(0, [("A", 5)])] (mkRat 1 10)
      = [(0, "A")] ∧
    ("A" : String) ≠ "NA" := by
  decide

/-- Claim C2, amended: when the minimal p-value of a cluster equals the
threshold exactly, the NA branch, governed by the strict comparison
`min_value > pval_thrsh`, is not taken: the resolver proceeds to the
tie-break or unique-minimum branch and assigns a cell type from those
branches. -/
theorem threshold_boundary_strict (pr : List (String × Rat))
    (sr : List (String × Nat)) (thr : Rat) (h : minVal pr = thr) :
    assign_type pr sr thr =
      if 1 < tiedCount pr thr then argmaxKey sr else argminKey pr := by
  simp only [assign_type]
  rw [h, if_neg (lt_irrefl thr)]

/-- Witness for the amended claim C2: one cell type at p-value 1/10 with
the threshold exactly 1/10; the non-NA branch assigns it. -/
theorem threshold_boundary_strict_witness :
    minVal [("A", mkRat 1 10)] = mkRat 1 10 ∧
    assign_type [("A", mkRat 1 10)] [("A", 5)] (mkRat 1 10) = "A" := by
  refine ⟨by decide, ?_⟩
  have h := threshold_boundary_strict [("A", mkRat 1 10)] [("A", 5)]
    (mkRat 1 10) (by decide)
  exact h.trans (by decide)

/-! ### Claim C9 -/

/-- Claim C9: when the dataset carries no clustering solution (neither a
louvain nor a leiden column) or no gene ranking, `score_clusters` returns
the missing-prerequisite error immediately: no scoring, no permutation
work, and no `scoreCT` slot is produced.  The specification names this
failure `MissingPrerequisiteError`; the source realizes it as the early
error-string return. -/
theorem missing_prereq_fails_fast (ad : AnnData) (ref_df : RefMarker)
    (bin_size : Nat) (draws : List (List String))
    (h : ("louvain" ∉ ad.obs_columns ∧ "leiden" ∉ ad.obs_columns) ∨
         ad.rank_genes_groups = none) :
    score_clusters ad ref_df bin_size draws = Except.error missingPrereqMsg := by
  have hg : (¬ (¬ ("louvain" ∉ ad.obs_columns) ∨ ¬ ("leiden" ∉ ad.obs_columns))) ∨
      ad.rank_genes_groups = none := by tauto
  simp only [score_clusters]
  rw [if_pos hg]

/-- Witness for claim C9: a dataset with no obs columns and no ranking
artifact makes `score_clusters` fail with the prerequisite error. -/
theorem missing_prereq_fails_fast_witness :
    ((("louvain" : String) ∉ ([] : List String) ∧ ("leiden" : String) ∉ ([] : List String)) ∨
      (AnnData.mk [] none none).rank_genes_groups = none) ∧
    score_clusters (AnnData.mk [] none none) [] 1 [] = Except.error missingPrereqMsg := by
  exact ⟨by decide, missing_prereq_fails_fast (AnnData.mk [] none none) [] 1 [] (by decide)⟩

end ScoreCT

namespace ScoreCT

/-! ### Claim C8 -/

/-- A default record for positional access; never the value actually read
in the statements below, which stay within the table length. -/
def dfltRec : RankedGeneRecord := ⟨0, "", 0, 0⟩

/-- Claim C8: `randomize_genes` builds a new table (the source copies the
dataframe, so the input is left untouched; the embedding is a pure function
of its input) of the same length in which, at every rank position, the
cluster assignment, z-score and adjusted p-value fields are those of the
input record at the same position, and only the gene field is replaced by
the drawn gene of that position. -/
theorem randomize_only_gene (t : RankedGeneTable) (rd_pick : List String)
    (h : rd_pick.length = t.length) :
    (randomize_genes t rd_pick).length = t.length ∧
    ∀ i, i < t.length →
      ((randomize_genes t rd_pick).getD i dfltRec).cluster_number
          = (t.getD i dfltRec).cluster_number ∧
      ((randomize_genes t rd_pick).getD i dfltRec).z_score
          = (t.getD i dfltRec).z_score ∧
      ((randomize_genes t rd_pick).getD i dfltRec).adj_pvals
          = (t.getD i dfltRec).adj_pvals ∧
      ((randomize_genes t rd_pick).getD i dfltRec).gene = rd_pick.getD i "" := by
  induction t generalizing rd_pick with
  | nil =>
    refine ⟨by simp [randomize_genes], ?_⟩
    intro i hi
    exact absurd hi (by simp)
  | cons r t ih =>
    cases rd_pick with
    | nil => exact absurd h (by simp)
    | cons g rd =>
      have h' : rd.length = t.length := by simpa using h
      obtain ⟨hlen, hfields⟩ := ih rd h'
      have hcons : randomize_genes (r :: t) (g :: rd)
          = { r with gene := g } :: randomize_genes t rd := rfl
      refine ⟨by simp [hcons, hlen], ?_⟩
      intro i hi
      cases i with
      | zero => exact ⟨rfl, rfl, rfl, rfl⟩
      | succ i =>
        have hi' : i < t.length := by simpa using hi
        have hf := hfields i hi'
        simpa [hcons, List.getD_cons_succ] using hf

/-- Witness for claim C8 on a concrete two-row table and two drawn genes. -/
theorem randomize_only_gene_witness :
    (["x", "y"] : List String).length
        = ([⟨0, "a", 1, mkRat 1 2⟩, ⟨1, "b", 2, mkRat 1 3⟩] : RankedGeneTable).length ∧
    (randomize_genes [⟨0, "a", 1, mkRat 1 2⟩, ⟨1, "b", 2, mkRat 1 3⟩] ["x", "y"]).length
        = ([⟨0, "a", 1, mkRat 1 2⟩, ⟨1, "b", 2, mkRat 1 3⟩] : RankedGeneTable).length ∧
    ∀ i, i < ([⟨0, "a", 1, mkRat 1 2⟩, ⟨1, "b", 2, mkRat 1 3⟩] : RankedGeneTable).length →
      ((randomize_genes [⟨0, "a", 1, mkRat 1 2⟩, ⟨1, "b", 2, mkRat 1 3⟩] ["x", "y"]).getD i dfltRec).cluster_number
          = (([⟨0, "a", 1, mkRat 1 2⟩, ⟨1, "b", 2, mkRat 1 3⟩] : RankedGeneTable).getD i dfltRec).cluster_number ∧
      ((randomize_genes [⟨0, "a", 1, mkRat 1 2⟩, ⟨1, "b", 2, mkRat 1 3⟩] ["x", "y"]).getD i dfltRec).z_score
          = (([⟨0, "a", 1, mkRat 1 2⟩, ⟨1, "b", 2, mkRat 1 3⟩] : RankedGeneTable).getD i dfltRec).z_score ∧
      ((randomize_genes [⟨0, "a", 1, mkRat 1 2⟩, ⟨1, "b", 2, mkRat 1 3⟩] ["x", "y"]).getD i dfltRec).adj_pvals
          = (([⟨0, "a", 1, mkRat 1 2⟩, ⟨1, "b", 2, mkRat 1 3⟩] : RankedGeneTable).getD i dfltRec).adj_pvals ∧
      ((randomize_genes [⟨0, "a", 1, mkRat 1 2⟩, ⟨1, "b", 2, mkRat 1 3⟩] ["x", "y"]).getD i dfltRec).gene
          = (["x", "y"] : List String).getD i "" := by
  exact ⟨by decide,
    randomize_only_gene [⟨0, "a", 1, mkRat 1 2⟩, ⟨1, "b", 2, mkRat 1 3⟩] ["x", "y"] (by decide)⟩

/-! ### Scoring helper lemmas -/

/-- The accumulation of the bin loop as a finite sum. -/
lemma foldl_range_add (n : Nat) (f : Nat → Nat) :
    (List.range n).foldl (fun acc k => acc + f k) 0 = ∑ k in Finset.range n, f k := by
  induction n with
  | zero => simp
  | succ n ih =>
    rw [List.range_succ, List.foldl_append, Finset.sum_range_succ, ih]
    simp

/-- The Python set-intersection cardinality of `interCard` is the
cardinality of the intersection of the two generated finite sets. -/
lemma interCard_eq_card_inter (ms ys : List String) :
    interCard ms ys = (ms.toFinset ∩ ys.toFinset).card := by
  have h1 : (ms.dedup.filter (fun g => decide (g ∈ ys))).Nodup :=
    (List.nodup_dedup ms).filter _
  rw [interCard, ← List.toFinset_card_of_nodup h1, List.toFinset_filter]
  congr 1
  ext g
  simp [Finset.mem_filter, Finset.mem_inter, List.mem_toFinset]

/-- The score is the weighted sum of the per-bin intersection counts. -/
lemma score_cell_type_eq_sum (sub : RankedGeneTable) (nb_marker bin_size : Nat)
    (ms : List String) :
    score_cell_type sub nb_marker bin_size ms =
      ∑ k in Finset.range (nb_marker / bin_size),
        (nb_marker / bin_size - k) * interCard ms (binGenes sub bin_size k) := by
  exact foldl_range_add _ _

end ScoreCT

namespace ScoreCT

/-! ### Concrete example tables for the spec scenarios -/

/-- A record of cluster 0 carrying only a gene name; z-score and p-value
play no role in scoring. -/
def mkRec (g : String) : RankedGeneRecord := ⟨0, g, 0, 0⟩

/-- A one-cluster table from a list of genes in ranking order. -/
def exTable (gs : List String) : RankedGeneTable := gs.map mkRec

/-- One hundred pairwise distinct gene names `g0 ... g99` in rank order. -/
def genes100 : List String := (List.range 100).map (fun i => "g" ++ toString i)

/-! ### Claim C3 -/

/-- Claim C3: the score of a cell type for a cluster is the sum over the
`nb_marker / bin_size` bins of bin weight times the cardinality of the
intersection of the bin gene set with the marker set, where bin `k` spans
the `bin_size` rank positions starting at `k * bin_size` and weighs
`nb_marker / bin_size - k` (weights `1..num_bins` in reverse order, bin 0
getting `num_bins`); concretely, with `nb_marker = 100` and
`bin_size = 20`, a 3-gene marker set lying entirely in bin 0 scores
`3 * 5 = 15` (also threaded through `_score_iter` on the cluster) and
lying entirely in bin 4 scores `3 * 1 = 3`. -/
theorem binned_score_characterization :
    (∀ (sub : RankedGeneTable) (nb_marker bin_size : Nat) (ms : List String),
      score_cell_type sub nb_marker bin_size ms =
        ∑ k in Finset.range (nb_marker / bin_size),
          (nb_marker / bin_size - k) *
            (ms.toFinset ∩ (binGenes sub bin_size k).toFinset).card) ∧
    score_iter (exTable genes100) 100 [("CT", ["g0", "g1", "g2"])] 20
      = [(0, [("CT", 15)])] ∧
    score_cell_type (exTable genes100) 100 20 ["g80", "g81", "g82"] = 3 := by
  refine ⟨?_, by decide, by decide⟩
  intro sub nb_marker bin_size ms
  rw [score_cell_type_eq_sum]
  exact Finset.sum_congr rfl (fun k _ => by rw [interCard_eq_card_inter])

/-! ### Claim C4 -/

/-- Rows past the end of bin `k` do not change the genes of bin `k`. -/
lemma binGenes_append (sub extra : RankedGeneTable) (bin_size k : Nat)
    (h : k * bin_size + bin_size ≤ sub.length) :
    binGenes (sub ++ extra) bin_size k = binGenes sub bin_size k := by
  unfold binGenes
  rw [List.drop_append_of_le_length (le_trans (Nat.le_add_right _ _) h)]
  have hlen : bin_size ≤ (sub.drop (k * bin_size)).length := by
    rw [List.length_drop]
    omega
  rw [List.take_append_of_le_length hlen]

/-- Claim C4: rank positions past the last full bin are excluded from
scoring: appending any rows after the `(nb_marker / bin_size) * bin_size`
scored positions of a cluster leaves every score unchanged, so a marker
gene placed at such a remainder position contributes 0 to every cell type
score. -/
theorem remainder_positions_excluded (sub extra : RankedGeneTable)
    (nb_marker bin_size : Nat) (ms : List String)
    (h : (nb_marker / bin_size) * bin_size ≤ sub.length) :
    score_cell_type (sub ++ extra) nb_marker bin_size ms
      = score_cell_type sub nb_marker bin_size ms := by
  rw [score_cell_type_eq_sum, score_cell_type_eq_sum]
  refine Finset.sum_congr rfl (fun k hk => ?_)
  have hk' : k < nb_marker / bin_size := Finset.mem_range.mp hk
  have hbound : k * bin_size + bin_size ≤ sub.length := by
    have h1 : (k + 1) * bin_size ≤ (nb_marker / bin_size) * bin_size :=
      Nat.mul_le_mul_right _ hk'
    have h2 : (k + 1) * bin_size = k * bin_size + bin_size := Nat.succ_mul k bin_size
    omega
  rw [binGenes_append sub extra bin_size k hbound]

/-- Witness for claim C4 at the spec scenario: `nb_marker = 105`,
`bin_size = 20` gives 5 full bins covering ranks 0 to 99; a table of the
100 genes `g0..g99` extended by three remainder rows whose third gene,
at rank 102, is the sole marker `m` of the cell type still scores 0. -/
theorem remainder_positions_excluded_witness :
    (105 / 20) * 20 ≤ (exTable genes100).length ∧
    score_cell_type (exTable genes100 ++ exTable ["h0", "h1", "m"]) 105 20 ["m"] = 0 :=
  ⟨by decide,
    (remainder_positions_excluded (exTable genes100) (exTable ["h0", "h1", "m"])
      105 20 ["m"] (by decide)).trans (by decide)⟩

end ScoreCT

namespace ScoreCT

/-! ### Permutation tester helper lemmas -/

/-- A conditional-increment fold counts exactly the matching elements. -/
lemma foldl_count_eq_filter_length {α : Type} (pr : α → Prop) [DecidablePred pr]
    (l : List α) (n : Nat) :
    l.foldl (fun a x => if pr x then a + 1 else a) n
      = n + (l.filter (fun x => decide (pr x))).length := by
  induction l generalizing n with
  | nil => simp
  | cons x l ih =>
    by_cases hx : pr x
    · simp only [List.foldl_cons, if_pos hx, List.filter_cons, decide_eq_true hx]
      rw [ih]
      simp [Nat.add_comm, Nat.add_assoc, Nat.add_left_comm]
    · simp only [List.foldl_cons, if_neg hx, List.filter_cons, decide_eq_false hx]
      exact ih n

/-- The permutation counter of a pair is the number of draws whose
randomized score reaches the observed score. -/
lemma count_for_eq_filter (t : RankedGeneTable) (nb_marker bin_size : Nat)
    (ref_df : RefMarker) (obs : Nat) (c : Nat) (ct : String)
    (draws : List (List String)) :
    count_for t nb_marker bin_size ref_df obs c ct draws
      = (draws.filter
          (fun d => decide (obs ≤ permuted_score t nb_marker bin_size ref_df d c ct))).length := by
  unfold count_for
  simpa using foldl_count_eq_filter_length
    (fun d => obs ≤ permuted_score t nb_marker bin_size ref_df d c ct) draws 0

/-- The counter never exceeds the number of iterations. -/
lemma count_for_le (t : RankedGeneTable) (nb_marker bin_size : Nat)
    (ref_df : RefMarker) (obs : Nat) (c : Nat) (ct : String)
    (draws : List (List String)) :
    count_for t nb_marker bin_size ref_df obs c ct draws ≤ draws.length := by
  rw [count_for_eq_filter]
  exact List.length_filter_le _ _

/-- Every entry of the p-value dictionary is the counter of its pair,
taken at the observed score of that pair, divided by the number of
iterations. -/
lemma pval_entry_spec (t : RankedGeneTable) (nb_marker bin_size : Nat)
    (ref_df : RefMarker) (draws : List (List String)) (c : Nat)
    (row : List (String × Rat)) (ct : String) (p : Rat)
    (hc : (c, row) ∈ permutation_pvalues t nb_marker bin_size ref_df draws)
    (hp : (ct, p) ∈ row) :
    ∃ orow s, (c, orow) ∈ score_iter t nb_marker ref_df bin_size ∧
      (ct, s) ∈ orow ∧
      p = (count_for t nb_marker bin_size ref_df s c ct draws : ℚ) / (draws.length : ℚ) := by
  unfold permutation_pvalues at hc
  obtain ⟨⟨c1, orow⟩, hcr, heq⟩ := List.mem_map.mp hc
  have h1 : c1 = c := congrArg Prod.fst heq
  have h2 : orow.map (fun cs =>
      (cs.1, (count_for t nb_marker bin_size ref_df cs.2 c1 cs.1 draws : ℚ) / (draws.length : ℚ)))
      = row := congrArg Prod.snd heq
  subst h1
  rw [← h2] at hp
  obtain ⟨⟨ct1, s⟩, hcs, heq2⟩ := List.mem_map.mp hp
  have h3 : ct1 = ct := congrArg Prod.fst heq2
  have h4 : (count_for t nb_marker bin_size ref_df s c1 ct1 draws : ℚ) / (draws.length : ℚ) = p :=
    congrArg Prod.snd heq2
  subst h3
  exact ⟨orow, s, hcr, hcs, h4.symm⟩

/-! ### Claim C5 -/

/-- Claim C5: every p-value returned by the permutation tester for a pair
(cluster, cell type) equals the number of permutation iterations whose
randomized score is greater than or equal to the observed score of that
pair, divided by the number of iterations. -/
theorem pvalue_eq_count_div_iterations (t : RankedGeneTable)
    (nb_marker bin_size : Nat) (ref_df : RefMarker) (draws : List (List String))
    (c : Nat) (row : List (String × Rat)) (ct : String) (p : Rat)
    (hc : (c, row) ∈ permutation_pvalues t nb_marker bin_size ref_df draws)
    (hp : (ct, p) ∈ row) :
    ∃ orow s, (c, orow) ∈ score_iter t nb_marker ref_df bin_size ∧
      (ct, s) ∈ orow ∧
      p = ((draws.filter
            (fun d => decide (s ≤ permuted_score t nb_marker bin_size ref_df d c ct))).length : ℚ)
          / (draws.length : ℚ) := by
  obtain ⟨orow, s, h1, h2, h3⟩ :=
    pval_entry_spec t nb_marker bin_size ref_df draws c row ct p hc hp
  rw [count_for_eq_filter] at h3
  exact ⟨orow, s, h1, h2, h3⟩

end ScoreCT

namespace ScoreCT

/-- Casting a quotient of naturals into the rationals gives `mkRat`. -/
lemma natCast_div_natCast (m n : ℕ) : ((m : ℚ)) / ((n : ℚ)) = mkRat m n := by
  rw [Rat.mkRat_eq_divInt, Rat.divInt_eq_div]
  norm_num

/-- The p-value dictionary of the small witness run: one cluster, one cell
type with observed score 1, two draws of which one reaches the observed
score, so the single p-value is 1/2. -/
lemma pvalues_witness_eval :
    permutation_pvalues [⟨0, "g", 0, 0⟩] 1 1 [("CT", ["g"])] [["g"], ["x"]]
      = [(0, [("CT", mkRat 1 2)])] := by
  have h1 : score_iter [⟨0, "g", 0, 0⟩] 1 [("CT", ["g"])] 1 = [(0, [("CT", 1)])] := by
    decide
  have h2 : count_for [⟨0, "g", 0, 0⟩] 1 1 [("CT", ["g"])] 1 0 "CT" [["g"], ["x"]] = 1 := by
    decide
  unfold permutation_pvalues
  rw [h1]
  simp only [List.map_cons, List.map_nil, h2, List.length_cons, List.length_nil]
  rw [natCast_div_natCast]
  decide

/-- Witness for claim C5 at the small run: the returned p-value 1/2 equals
the one matching draw out of two, divided by two. -/
theorem pvalue_eq_count_div_iterations_witness :
    ((0 : Nat), [(("CT" : String), mkRat 1 2)])
        ∈ permutation_pvalues [⟨0, "g", 0, 0⟩] 1 1 [("CT", ["g"])] [["g"], ["x"]] ∧
    (("CT" : String), mkRat 1 2) ∈ [(("CT" : String), mkRat 1 2)] ∧
    ∃ orow s, ((0 : Nat), orow) ∈ score_iter [⟨0, "g", 0, 0⟩] 1 [("CT", ["g"])] 1 ∧
      (("CT" : String), s) ∈ orow ∧
      mkRat 1 2 = (([["g"], ["x"]].filter
            (fun d => decide (s ≤ permuted_score [⟨0, "g", 0, 0⟩] 1 1 [("CT", ["g"])] d 0 "CT"))).length : ℚ)
          / (([["g"], ["x"]] : List (List String)).length : ℚ) := by
  refine ⟨by rw [pvalues_witness_eval]; decide, by decide, ?_⟩
  exact pvalue_eq_count_div_iterations [⟨0, "g", 0, 0⟩] 1 1 [("CT", ["g"])]
    [["g"], ["x"]] 0 [("CT", mkRat 1 2)] "CT" (mkRat 1 2)
    (by rw [pvalues_witness_eval]; decide) (by decide)

/-! ### Claim C6 -/

/-- Claim C6: every returned p-value lies in the interval from 0 to 1, is
an integer multiple of one over the number of iterations, and equals 0 only
if no permutation iteration reached the observed score of its pair. -/
theorem pvalue_bounds_and_resolution (t : RankedGeneTable)
    (nb_marker bin_size : Nat) (ref_df : RefMarker) (draws : List (List String))
    (c : Nat) (row : List (String × Rat)) (ct : String) (p : Rat)
    (hK : 1 ≤ draws.length)
    (hc : (c, row) ∈ permutation_pvalues t nb_marker bin_size ref_df draws)
    (hp : (ct, p) ∈ row) :
    0 ≤ p ∧ p ≤ 1 ∧
    (∃ n : ℕ, n ≤ draws.length ∧ p = (n : ℚ) / (draws.length : ℚ)) ∧
    (p = 0 → ∃ orow s, (c, orow) ∈ score_iter t nb_marker ref_df bin_size ∧
      (ct, s) ∈ orow ∧
      ∀ d ∈ draws, permuted_score t nb_marker bin_size ref_df d c ct < s) := by
  obtain ⟨orow, s, h1, h2, h3⟩ :=
    pval_entry_spec t nb_marker bin_size ref_df draws c row ct p hc hp
  have hKpos : (0 : ℚ) < (draws.length : ℚ) := by
    exact_mod_cast Nat.lt_of_lt_of_le Nat.zero_lt_one hK
  have hcle : (count_for t nb_marker bin_size ref_df s c ct draws : ℚ)
      ≤ (draws.length : ℚ) :=
    Nat.cast_le.mpr (count_for_le t nb_marker bin_size ref_df s c ct draws)
  refine ⟨?_, ?_, ?_, ?_⟩
  · rw [h3]
    exact div_nonneg (Nat.cast_nonneg _) (le_of_lt hKpos)
  · rw [h3]
    exact (div_le_one hKpos).mpr hcle
  · exact ⟨count_for t nb_marker bin_size ref_df s c ct draws,
      count_for_le t nb_marker bin_size ref_df s c ct draws, h3⟩
  · intro hzero
    refine ⟨orow, s, h1, h2, ?_⟩
    rw [h3] at hzero
    have hnum : (count_for t nb_marker bin_size ref_df s c ct draws : ℚ) = 0 := by
      rcases div_eq_zero_iff.mp hzero with h | h
      · exact h
      · exact absurd h (ne_of_gt hKpos)
    have hcount : count_for t nb_marker bin_size ref_df s c ct draws = 0 :=
      Nat.cast_eq_zero.mp hnum
    rw [count_for_eq_filter] at hcount
    have hnil := List.length_eq_zero.mp hcount
    intro d hd
    have := List.filter_eq_nil_iff.mp hnil d hd
    simp only [decide_eq_true_eq] at this
    exact lt_of_not_le this

/-- Witness for claim C6 at the small run with two iterations. -/
theorem pvalue_bounds_and_resolution_witness :
    1 ≤ ([["g"], ["x"]] : List (List String)).length ∧
    (0 ≤ mkRat 1 2 ∧ mkRat 1 2 ≤ 1 ∧
    (∃ n : ℕ, n ≤ ([["g"], ["x"]] : List (List String)).length ∧
      mkRat 1 2 = (n : ℚ) / (([["g"], ["x"]] : List (List String)).length : ℚ)) ∧
    (mkRat 1 2 = 0 → ∃ orow s,
      ((0 : Nat), orow) ∈ score_iter [⟨0, "g", 0, 0⟩] 1 [("CT", ["g"])] 1 ∧
      (("CT" : String), s) ∈ orow ∧
      ∀ d ∈ ([["g"], ["x"]] : List (List String)),
        permuted_score [⟨0, "g", 0, 0⟩] 1 1 [("CT", ["g"])] d 0 "CT" < s)) := by
  refine ⟨by decide, ?_⟩
  exact pvalue_bounds_and_resolution [⟨0, "g", 0, 0⟩] 1 1 [("CT", ["g"])]
    [["g"], ["x"]] 0 [("CT", mkRat 1 2)] "CT" (mkRat 1 2)
    (by decide) (by rw [pvalues_witness_eval]; decide) (by decide)

/-! ### Claim C10 -/

/-- Claim C10: a cell type with an empty marker set scores 0 for every
cluster, and every pair (cluster, cell type) whose observed score is 0
receives the empirical p-value exactly 1 whenever at least one permutation
iteration runs: permuted scores are naturals, so the comparison against 0
succeeds in all iterations. -/
theorem zero_score_pvalue_one :
    (∀ (sub : RankedGeneTable) (nb_marker bin_size : Nat),
      score_cell_type sub nb_marker bin_size [] = 0) ∧
    (∀ (t : RankedGeneTable) (nb_marker bin_size : Nat) (ref_df : RefMarker)
      (draws : List (List String)) (c : Nat) (orow : List (String × Nat)) (ct : String),
      1 ≤ draws.length →
      (c, orow) ∈ score_iter t nb_marker ref_df bin_size →
      (ct, 0) ∈ orow →
      ∃ row, (c, row) ∈ permutation_pvalues t nb_marker bin_size ref_df draws ∧
        (ct, (1 : ℚ)) ∈ row) := by
  constructor
  · intro sub nb_marker bin_size
    simp [score_cell_type_eq_sum, interCard]
  · intro t nb_marker bin_size ref_df draws c orow ct hK hc hs
    refine ⟨orow.map (fun cs =>
      (cs.1, (count_for t nb_marker bin_size ref_df cs.2 c cs.1 draws : ℚ) / (draws.length : ℚ))), ?_, ?_⟩
    · exact List.mem_map_of_mem (fun cr =>
        (cr.1, cr.2.map (fun cs =>
          (cs.1, (count_for t nb_marker bin_size ref_df cs.2 cr.1 cs.1 draws : ℚ) / (draws.length : ℚ))))) hc
    · have hmem := List.mem_map_of_mem (fun cs : String × Nat =>
        (cs.1, (count_for t nb_marker bin_size ref_df cs.2 c cs.1 draws : ℚ) / (draws.length : ℚ))) hs
      have hcount : count_for t nb_marker bin_size ref_df 0 c ct draws = draws.length := by
        rw [count_for_eq_filter]
        have : (draws.filter
            (fun d => decide ((0 : Nat) ≤ permuted_score t nb_marker bin_size ref_df d c ct)))
            = draws := by
          apply List.filter_eq_self.mpr
          intro d _
          simp [Nat.zero_le]
        rw [this]
      have hone : (count_for t nb_marker bin_size ref_df 0 c ct draws : ℚ) / (draws.length : ℚ)
          = 1 := by
        rw [hcount]
        exact div_self (ne_of_gt (by exact_mod_cast Nat.lt_of_lt_of_le Nat.zero_lt_one hK))
      have hmem2 : (ct, (count_for t nb_marker bin_size ref_df 0 c ct draws : ℚ)
          / (draws.length : ℚ)) ∈ orow.map (fun cs =>
            (cs.1, (count_for t nb_marker bin_size ref_df cs.2 c cs.1 draws : ℚ)
              / (draws.length : ℚ))) := hmem
      rw [hone] at hmem2
      exact hmem2

/-- Witness for claim C10: a cell type with an empty marker set has
observed score 0 on the one-row table, and its p-value over a single
permutation draw is exactly 1. -/
theorem zero_score_pvalue_one_witness :
    score_cell_type [⟨0, "g", 0, 0⟩] 1 1 [] = 0 ∧
    (1 ≤ ([["x"]] : List (List String)).length ∧
    ∃ row, ((0 : Nat), row) ∈ permutation_pvalues [⟨0, "g", 0, 0⟩] 1 1 [("CT", [])] [["x"]] ∧
      (("CT" : String), (1 : ℚ)) ∈ row) := by
  refine ⟨zero_score_pvalue_one.1 [⟨0, "g", 0, 0⟩] 1 1, by decide, ?_⟩
  exact zero_score_pvalue_one.2 [⟨0, "g", 0, 0⟩] 1 1 [("CT", [])] [["x"]] 0
    [("CT", 0)] "CT" (by decide) (by decide) (by decide)

end ScoreCT

namespace ScoreCT

/-! ### Claim C7: moving a marker to an earlier bin -/

/-- The table obtained from `sub` by exchanging the gene fields of the
rows at rank positions `p` and `q`, every other field and row unchanged:
the move of one gene to the other position, the displaced gene taking its
place.  Out-of-range positions leave the table unchanged. -/
def swapGenes (sub : RankedGeneTable) (p q : Nat) : RankedGeneTable :=
  if hp : p < sub.length then
    if hq : q < sub.length then
      (sub.set p { sub.get ⟨p, hp⟩ with gene := (sub.get ⟨q, hq⟩).gene }).set q
        { sub.get ⟨q, hq⟩ with gene := (sub.get ⟨p, hp⟩).gene }
    else sub
  else sub

/-- The gene window of bin `k` as an operation on a plain gene list. -/
def binG (G : List String) (bin_size k : Nat) : List String :=
  (G.drop (k * bin_size)).take bin_size

/-- Claim C7, counterexample: on the table with gene column
`[g, x, g, y]` (the gene `g` appears at ranks 0 and 2), `nb_marker = 4`,
`bin_size = 2` and marker set `{g}`, moving the matched marker `g` from
rank 2 (bin 1, the later bin) to rank 1 (bin 0, the earlier bin) by the
gene exchange of ranks 1 and 2 drops the score from 3 to 2, because the
Python set intersection collapses the duplicated `g` inside bin 0.  So on
an arbitrary ranked table the move can decrease the score, refuting the
claim as stated. -/
theorem move_earlier_counterexample :
    ((geneList (exTable ["g", "x", "g", "y"])).getD 2 "" = "g" ∧ "g" ∈ ["g"]) ∧
    swapGenes (exTable ["g", "x", "g", "y"]) 2 1 = exTable ["g", "g", "x", "y"] ∧
    (2 : Nat) / 2 = 1 ∧ (1 : Nat) / 2 = 0 ∧
    score_cell_type (exTable ["g", "x", "g", "y"]) 4 2 ["g"] = 3 ∧
    score_cell_type (swapGenes (exTable ["g", "x", "g", "y"]) 2 1) 4 2 ["g"] = 2 ∧
    score_cell_type (swapGenes (exTable ["g", "x", "g", "y"]) 2 1) 4 2 ["g"]
      < score_cell_type (exTable ["g", "x", "g", "y"]) 4 2 ["g"] := by
  decide

/-- `binGenes` of a table is `binG` of its gene column. -/
lemma binGenes_eq_binG (sub : RankedGeneTable) (bin_size k : Nat) :
    binGenes sub bin_size k = binG (geneList sub) bin_size k := by
  unfold binGenes binG geneList
  rw [List.map_take, List.map_drop]

/-- The gene column of the swapped table is the gene column with the two
entries exchanged. -/
lemma geneList_swapGenes (sub : RankedGeneTable) (p q : Nat)
    (hp : p < sub.length) (hq : q < sub.length) :
    geneList (swapGenes sub p q)
      = List.set (List.set (geneList sub) p ((geneList sub).getD q ""))
          q ((geneList sub).getD p "") := by
  have hpg : p < (geneList sub).length := by simpa [geneList] using hp
  have hqg : q < (geneList sub).length := by simpa [geneList] using hq
  have e1 : (geneList sub).getD p "" = (sub.get ⟨p, hp⟩).gene := by
    rw [List.getD_eq_getElem _ _ hpg]
    simp [geneList]
  have e2 : (geneList sub).getD q "" = (sub.get ⟨q, hq⟩).gene := by
    rw [List.getD_eq_getElem _ _ hqg]
    simp [geneList]
  rw [e1, e2]
  unfold swapGenes
  rw [dif_pos hp, dif_pos hq]
  simp [geneList, List.map_set]

/-- Setting one position of the gene list rewrites one bin: positions
before the bin leave it unchanged, the rest replace the corresponding
slot of the window (a no-op when past the window). -/
lemma binG_set (G : List String) (a : String) (idx bin_size k : Nat) :
    binG (G.set idx a) bin_size k =
      if idx < k * bin_size then binG G bin_size k
      else (binG G bin_size k).set (idx - k * bin_size) a := by
  by_cases hc : idx < k * bin_size
  · simp [binG, List.drop_set, hc]
  · simp [binG, List.drop_set, hc, List.set_take]

/-- A position strictly before bin `k` does not change bin `k`. -/
lemma binG_set_low (G : List String) (a : String) (idx bin_size k : Nat)
    (h : idx < k * bin_size) :
    binG (G.set idx a) bin_size k = binG G bin_size k := by
  rw [binG_set, if_pos h]

/-- A position at or past the end of bin `k` does not change bin `k`. -/
lemma binG_set_high (G : List String) (a : String) (idx bin_size k : Nat)
    (h : k * bin_size + bin_size ≤ idx) :
    binG (G.set idx a) bin_size k = binG G bin_size k := by
  rw [binG_set, if_neg (by omega)]
  apply List.set_eq_of_length_le
  have h1 : (binG G bin_size k).length ≤ bin_size := by
    rw [binG, List.length_take]
    omega
  omega

/-- Bin `k` of the first `n` bins is a sublist of the first `n * bin_size`
positions of the gene list. -/
lemma binG_sublist_take (G : List String) (bin_size n k : Nat) (hk : k < n) :
    (binG G bin_size k).Sublist (G.take (n * bin_size)) := by
  have hM : bin_size ≤ n * bin_size - k * bin_size := by
    have h3 : (k + 1) * bin_size ≤ n * bin_size := Nat.mul_le_mul_right bin_size hk
    rw [Nat.succ_mul] at h3
    omega
  have heq : ((G.take (n * bin_size)).drop (k * bin_size)).take bin_size
      = binG G bin_size k := by
    rw [List.drop_take, List.take_take, min_eq_left hM, binG]
  rw [← heq]
  exact (List.take_sublist _ _).trans (List.drop_sublist _ _)

/-- On a duplicate-free list the set-intersection count of the scoring is
a plain element count. -/
lemma interCard_eq_countP (ms ys : List String) (hy : ys.Nodup) :
    interCard ms ys = ys.countP (fun y => decide (y ∈ ms)) := by
  have h1 : (ys.filter (fun y => decide (y ∈ ms))).Nodup := hy.filter _
  rw [interCard_eq_card_inter, Finset.inter_comm, List.countP_eq_length_filter,
    ← List.toFinset_card_of_nodup h1, List.toFinset_filter]
  congr 1
  ext a
  simp

/-- Replacing the element at one position trades its count contribution
for the contribution of the new element. -/
lemma countP_set_add {α : Type} (l : List α) (n : Nat) (a : α) (f : α → Bool)
    (hn : n < l.length) :
    (l.set n a).countP f + (if f (l.getD n a) then 1 else 0)
      = l.countP f + (if f a then 1 else 0) := by
  induction l generalizing n with
  | nil => simp at hn
  | cons x t ih =>
    cases n with
    | zero =>
      simp only [List.set_cons_zero, List.getD_cons_zero, List.countP_cons]
      split_ifs <;> omega
    | succ n =>
      have hn' : n < t.length := by simpa using hn
      have hih := ih n hn'
      simp only [List.set_cons_succ, List.getD_cons_succ, List.countP_cons]
      split_ifs at hih ⊢ <;> omega

/-- Replacing one entry of a duplicate-free list by an element that does
not occur in it keeps it duplicate-free. -/
lemma nodup_set_of_not_mem {α : Type} (l : List α) (n : Nat) (a : α)
    (hl : l.Nodup) (ha : a ∉ l) : (l.set n a).Nodup := by
  induction l generalizing n with
  | nil => simp
  | cons x t ih =>
    cases n with
    | zero =>
      simp only [List.set_cons_zero, List.nodup_cons]
      exact ⟨fun hmem => ha (List.mem_cons_of_mem x hmem), (List.nodup_cons.mp hl).2⟩
    | succ n =>
      simp only [List.set_cons_succ, List.nodup_cons]
      constructor
      · intro hmem
        rcases List.mem_or_eq_of_mem_set hmem with h | h
        · exact (List.nodup_cons.mp hl).1 h
        · exact ha (h ▸ List.mem_cons_self x t)
      · exact ih n (List.nodup_cons.mp hl).2 (fun hmem => ha (List.mem_cons_of_mem x hmem))

/-- Every natural is below the end of the bin it belongs to. -/
lemma lt_succ_div_mul (q bin_size : Nat) (hbs : 0 < bin_size) :
    q < (q / bin_size + 1) * bin_size := by
  have h1 := Nat.div_add_mod q bin_size
  have h2 := Nat.mod_lt q hbs
  have h3 : (q / bin_size + 1) * bin_size = bin_size * (q / bin_size) + bin_size := by
    ring
  linarith

end ScoreCT

namespace ScoreCT

/-- Restricting the gene list to the scored region does not change the
first `n` bins. -/
lemma binG_take_eq (G : List String) (bin_size n k : Nat) (hk : k < n) :
    binG (G.take (n * bin_size)) bin_size k = binG G bin_size k := by
  have hM : bin_size ≤ n * bin_size - k * bin_size := by
    have h3 : (k + 1) * bin_size ≤ n * bin_size := Nat.mul_le_mul_right bin_size hk
    rw [Nat.add_mul, Nat.one_mul] at h3
    omega
  rw [binG, List.drop_take, List.take_take, min_eq_left hM, binG]

/-- In a table whose scored region has pairwise distinct genes, the gene of
a scored position does not occur in any bin other than its own. -/
lemma not_mem_bin_of_nodup (G : List String) (bin_size n k x : Nat)
    (hbs : 0 < bin_size) (hk : k < n) (hx : x < n * bin_size)
    (hxG : x < G.length) (hnd : (G.take (n * bin_size)).Nodup)
    (hxk : x / bin_size ≠ k) :
    G.getD x "" ∉ binG G bin_size k := by
  intro hmem
  rw [← binG_take_eq G bin_size n k hk] at hmem
  obtain ⟨m, hm, hme⟩ := List.mem_iff_getElem.mp hmem
  have hm2 := hm
  rw [binG, List.length_take, List.length_drop, List.length_take] at hm2
  have hmbs : m < bin_size := by omega
  have hmidx : k * bin_size + m < n * bin_size := by omega
  have hmidxG : k * bin_size + m < G.length := by omega
  have hTlen : k * bin_size + m < (G.take (n * bin_size)).length := by
    rw [List.length_take]
    omega
  have hxT : x < (G.take (n * bin_size)).length := by
    rw [List.length_take]
    omega
  have he2 : G[k * bin_size + m] = G.getD x "" := by
    rw [← hme]
    simp only [binG, List.getElem_take, List.getElem_drop]
  have hgd : G.getD x "" = G[x] := List.getD_eq_getElem G "" hxG
  have hTx : (G.take (n * bin_size))[x] = G[x] := List.getElem_take G
  have hTidx : (G.take (n * bin_size))[k * bin_size + m] = G[k * bin_size + m] :=
    List.getElem_take G
  have heq_idx : (G.take (n * bin_size))[k * bin_size + m]
      = (G.take (n * bin_size))[x] := by
    rw [hTidx, he2, hgd, hTx]
  have hxeq : k * bin_size + m = x := (List.Nodup.getElem_inj_iff hnd).mp heq_idx
  have hdiv : x / bin_size = k := by
    rw [← hxeq, Nat.add_comm, Nat.add_mul_div_right m k hbs, Nat.div_eq_of_lt hmbs]
    exact Nat.zero_add k
  exact hxk hdiv

end ScoreCT

namespace ScoreCT

/-- Core inequality of claim C7 on gene lists: with pairwise distinct genes
in the scored region, exchanging the gene at position `p` (a marker, in a
later bin) with the gene at position `q` (in a strictly earlier bin) never
decreases the weighted sum of per-bin marker overlaps. -/
lemma sum_bins_swap_le (G : List String) (bin_size n : Nat) (ms : List String)
    (p q : Nat) (gp gq : String)
    (hbs : 0 < bin_size)
    (hGlen : n * bin_size ≤ G.length)
    (hp : p < n * bin_size) (hq : q < n * bin_size)
    (hij : q / bin_size < p / bin_size)
    (hnd : (G.take (n * bin_size)).Nodup)
    (hgp : G.getD p "" = gp) (hgq : G.getD q "" = gq)
    (hmark : gp ∈ ms) :
    ∑ k in Finset.range n, (n - k) * interCard ms (binG G bin_size k)
      ≤ ∑ k in Finset.range n,
          (n - k) * interCard ms (binG ((G.set p gq).set q gp) bin_size k) := by
  set i := q / bin_size with hi
  set j := p / bin_size with hj
  have hqp : q < p := by
    by_contra hle
    push_neg at hle
    have hdd : p / bin_size ≤ q / bin_size := Nat.div_le_div_right hle
    rw [← hi, ← hj] at hdd
    omega
  have hpG : p < G.length := by omega
  have hqG : q < G.length := by omega
  have hj_lt_n : j < n := by
    rw [hj]
    have hp2 : p < bin_size * n := by rw [Nat.mul_comm]; exact hp
    exact Nat.div_lt_of_lt_mul hp2
  have hi_lt_n : i < n := lt_trans hij hj_lt_n
  have hibs_le_q : i * bin_size ≤ q := by rw [hi]; exact Nat.div_mul_le_self q bin_size
  have hjbs_le_p : j * bin_size ≤ p := by rw [hj]; exact Nat.div_mul_le_self p bin_size
  have hq_lt_bin : q < i * bin_size + bin_size := by
    have h2 := lt_succ_div_mul q bin_size hbs
    rw [Nat.add_mul, Nat.one_mul, ← hi] at h2
    exact h2
  have hp_lt_bin : p < j * bin_size + bin_size := by
    have h2 := lt_succ_div_mul p bin_size hbs
    rw [Nat.add_mul, Nat.one_mul, ← hj] at h2
    exact h2
  have hij_bs : i * bin_size + bin_size ≤ j * bin_size := by
    have h1 : (i + 1) * bin_size ≤ j * bin_size := Nat.mul_le_mul_right bin_size hij
    rw [Nat.add_mul, Nat.one_mul] at h1
    exact h1
  have hside : ∀ m k : Nat, m / bin_size ≠ k →
      m < k * bin_size ∨ k * bin_size + bin_size ≤ m := by
    intro m k hne
    have h1 : (m / bin_size) * bin_size ≤ m := Nat.div_mul_le_self m bin_size
    have h2 := lt_succ_div_mul m bin_size hbs
    rw [Nat.add_mul, Nat.one_mul] at h2
    rcases Nat.lt_or_ge (m / bin_size) k with hlt | hge
    · left
      have h3 : (m / bin_size + 1) * bin_size ≤ k * bin_size :=
        Nat.mul_le_mul_right bin_size hlt
      rw [Nat.add_mul, Nat.one_mul] at h3
      omega
    · right
      have hgt : k < m / bin_size := lt_of_le_of_ne hge (Ne.symm hne)
      have h3 : (k + 1) * bin_size ≤ (m / bin_size) * bin_size :=
        Nat.mul_le_mul_right bin_size hgt
      rw [Nat.add_mul, Nat.one_mul] at h3
      omega
  have hbin_other : ∀ k, k ≠ i → k ≠ j →
      binG ((G.set p gq).set q gp) bin_size k = binG G bin_size k := by
    intro k hki hkj
    have e1 : binG ((G.set p gq).set q gp) bin_size k = binG (G.set p gq) bin_size k := by
      rcases hside q k (by rw [← hi]; exact Ne.symm hki) with hc | hc
      · exact binG_set_low _ _ _ _ _ hc
      · exact binG_set_high _ _ _ _ _ hc
    have e2 : binG (G.set p gq) bin_size k = binG G bin_size k := by
      rcases hside p k (by rw [← hj]; exact Ne.symm hkj) with hc | hc
      · exact binG_set_low _ _ _ _ _ hc
      · exact binG_set_high _ _ _ _ _ hc
    rw [e1, e2]
  have hbin_i : binG ((G.set p gq).set q gp) bin_size i
      = (binG G bin_size i).set (q - i * bin_size) gp := by
    have e2 : binG (G.set p gq) bin_size i = binG G bin_size i := by
      apply binG_set_high
      omega
    rw [binG_set, if_neg (not_lt.mpr hibs_le_q), e2]
  have hbin_j : binG ((G.set p gq).set q gp) bin_size j
      = (binG G bin_size j).set (p - j * bin_size) gq := by
    have e1 : binG ((G.set p gq).set q gp) bin_size j = binG (G.set p gq) bin_size j := by
      apply binG_set_low
      omega
    rw [e1, binG_set, if_neg (not_lt.mpr hjbs_le_p)]
  have hnd_k : ∀ k, k < n → (binG G bin_size k).Nodup := fun k hk =>
    List.Nodup.sublist (binG_sublist_take G bin_size n k hk) hnd
  have hg_notin : gp ∉ binG G bin_size i := by
    rw [← hgp]
    exact not_mem_bin_of_nodup G bin_size n i p hbs hi_lt_n hp hpG hnd
      (by rw [← hj]; exact Ne.symm (ne_of_lt hij))
  have hq_notin : gq ∉ binG G bin_size j := by
    rw [← hgq]
    exact not_mem_bin_of_nodup G bin_size n j q hbs hj_lt_n hq hqG hnd
      (by rw [← hi]; exact ne_of_lt hij)
  have hnd_i2 : ((binG G bin_size i).set (q - i * bin_size) gp).Nodup :=
    nodup_set_of_not_mem _ _ _ (hnd_k i hi_lt_n) hg_notin
  have hnd_j2 : ((binG G bin_size j).set (p - j * bin_size) gq).Nodup :=
    nodup_set_of_not_mem _ _ _ (hnd_k j hj_lt_n) hq_notin
  have hlen_i : q - i * bin_size < (binG G bin_size i).length := by
    rw [binG, List.length_take, List.length_drop]
    omega
  have hget_i : (binG G bin_size i).getD (q - i * bin_size) gp = gq := by
    rw [List.getD_eq_getElem _ _ hlen_i]
    simp only [binG, List.getElem_take, List.getElem_drop]
    have hidx : i * bin_size + (q - i * bin_size) = q := by omega
    simp only [hidx]
    rw [← hgq]
    exact (List.getD_eq_getElem G "" hqG).symm
  have hlen_j : p - j * bin_size < (binG G bin_size j).length := by
    rw [binG, List.length_take, List.length_drop]
    omega
  have hget_j : (binG G bin_size j).getD (p - j * bin_size) gq = gp := by
    rw [List.getD_eq_getElem _ _ hlen_j]
    simp only [binG, List.getElem_take, List.getElem_drop]
    have hidx : j * bin_size + (p - j * bin_size) = p := by omega
    simp only [hidx]
    rw [← hgp]
    exact (List.getD_eq_getElem G "" hpG).symm
  have hAi := countP_set_add (binG G bin_size i) (q - i * bin_size) gp
      (fun y => decide (y ∈ ms)) hlen_i
  rw [hget_i] at hAi
  have hAj := countP_set_add (binG G bin_size j) (p - j * bin_size) gq
      (fun y => decide (y ∈ ms)) hlen_j
  rw [hget_j] at hAj
  have hgp_true : decide (gp ∈ ms) = true := decide_eq_true hmark
  have hiR : i ∈ Finset.range n := Finset.mem_range.mpr hi_lt_n
  have hjR : j ∈ (Finset.range n).erase i :=
    Finset.mem_erase.mpr ⟨Ne.symm (ne_of_lt hij), Finset.mem_range.mpr hj_lt_n⟩
  have hsum1 : ∑ k in Finset.range n, (n - k) * interCard ms (binG G bin_size k)
      = ∑ k in Finset.range n,
          (n - k) * (binG G bin_size k).countP (fun y => decide (y ∈ ms)) :=
    Finset.sum_congr rfl (fun k hk => by
      rw [interCard_eq_countP ms _ (hnd_k k (Finset.mem_range.mp hk))])
  have hsum2 : ∑ k in Finset.range n,
        (n - k) * interCard ms (binG ((G.set p gq).set q gp) bin_size k)
      = ∑ k in Finset.range n,
          (n - k) * (binG ((G.set p gq).set q gp) bin_size k).countP (fun y => decide (y ∈ ms)) :=
    Finset.sum_congr rfl (fun k hk => by
      by_cases hki : k = i
      · subst hki
        rw [hbin_i, interCard_eq_countP ms _ hnd_i2, ← hbin_i]
      · by_cases hkj : k = j
        · subst hkj
          rw [hbin_j, interCard_eq_countP ms _ hnd_j2, ← hbin_j]
        · rw [hbin_other k hki hkj, interCard_eq_countP ms _ (hnd_k k (Finset.mem_range.mp hk)),
            ← hbin_other k hki hkj])
  have hsplitL : ∑ k in Finset.range n,
        (n - k) * (binG G bin_size k).countP (fun y => decide (y ∈ ms))
      = (n - i) * (binG G bin_size i).countP (fun y => decide (y ∈ ms))
        + ((n - j) * (binG G bin_size j).countP (fun y => decide (y ∈ ms))
          + ∑ k in ((Finset.range n).erase i).erase j,
              (n - k) * (binG G bin_size k).countP (fun y => decide (y ∈ ms))) := by
    rw [Finset.add_sum_erase ((Finset.range n).erase i)
        (fun k => (n - k) * (binG G bin_size k).countP (fun y => decide (y ∈ ms))) hjR,
      Finset.add_sum_erase (Finset.range n)
        (fun k => (n - k) * (binG G bin_size k).countP (fun y => decide (y ∈ ms))) hiR]
  have hsplitR : ∑ k in Finset.range n,
        (n - k) * (binG ((G.set p gq).set q gp) bin_size k).countP (fun y => decide (y ∈ ms))
      = (n - i) * (binG ((G.set p gq).set q gp) bin_size i).countP (fun y => decide (y ∈ ms))
        + ((n - j) * (binG ((G.set p gq).set q gp) bin_size j).countP (fun y => decide (y ∈ ms))
          + ∑ k in ((Finset.range n).erase i).erase j,
              (n - k) * (binG ((G.set p gq).set q gp) bin_size k).countP (fun y => decide (y ∈ ms))) := by
    rw [Finset.add_sum_erase ((Finset.range n).erase i)
        (fun k => (n - k) * (binG ((G.set p gq).set q gp) bin_size k).countP (fun y => decide (y ∈ ms))) hjR,
      Finset.add_sum_erase (Finset.range n)
        (fun k => (n - k) * (binG ((G.set p gq).set q gp) bin_size k).countP (fun y => decide (y ∈ ms))) hiR]
  have hR : ∑ k in ((Finset.range n).erase i).erase j,
        (n - k) * (binG ((G.set p gq).set q gp) bin_size k).countP (fun y => decide (y ∈ ms))
      = ∑ k in ((Finset.range n).erase i).erase j,
          (n - k) * (binG G bin_size k).countP (fun y => decide (y ∈ ms)) :=
    Finset.sum_congr rfl (fun k hk => by
      have hkj : k ≠ j := (Finset.mem_erase.mp hk).1
      have hki : k ≠ i := (Finset.mem_erase.mp (Finset.mem_erase.mp hk).2).1
      rw [hbin_other k hki hkj])
  rw [hsum1, hsum2, hsplitL, hsplitR, hR, hbin_i, hbin_j]
  have hw : n - j ≤ n - i := Nat.sub_le_sub_left (le_of_lt hij) n
  by_cases hcase : gq ∈ ms
  · have hgq_true : decide (gq ∈ ms) = true := decide_eq_true hcase
    simp only [hgq_true, hgp_true, if_true] at hAi hAj
    have e1 : ((binG G bin_size i).set (q - i * bin_size) gp).countP (fun y => decide (y ∈ ms))
        = (binG G bin_size i).countP (fun y => decide (y ∈ ms)) := by omega
    have e2 : ((binG G bin_size j).set (p - j * bin_size) gq).countP (fun y => decide (y ∈ ms))
        = (binG G bin_size j).countP (fun y => decide (y ∈ ms)) := by omega
    rw [e1, e2]
  · have hgq_false : decide (gq ∈ ms) = false := decide_eq_false hcase
    simp only [hgq_false, hgp_true, if_true, Bool.false_eq_true, if_false] at hAi hAj
    have e1 : ((binG G bin_size i).set (q - i * bin_size) gp).countP (fun y => decide (y ∈ ms))
        = (binG G bin_size i).countP (fun y => decide (y ∈ ms)) + 1 := by omega
    have e2 : (binG G bin_size j).countP (fun y => decide (y ∈ ms))
        = ((binG G bin_size j).set (p - j * bin_size) gq).countP (fun y => decide (y ∈ ms)) + 1 := by
      omega
    rw [e1, e2]
    simp only [Nat.mul_add, Nat.mul_one]
    omega

end ScoreCT

namespace ScoreCT

/-- Claim C7, amended: in a cluster whose scored region (the first
`(nb_marker / bin_size) * bin_size` rank positions) carries pairwise
distinct genes — the situation of every real ranked table, where each gene
appears once per cluster — moving one matched marker gene from a later bin
(rank `p`) to an earlier bin (rank `q`, exchanging the two gene fields and
holding everything else fixed) never decreases that cell type's score,
because the bin weights are non-increasing from bin 0 onward.  Without the
distinctness proviso the claim fails, see the counterexample. -/
theorem move_to_earlier_bin_never_decreases
    (sub : RankedGeneTable) (nb_marker bin_size : Nat) (ms : List String) (p q : Nat)
    (hlen : (nb_marker / bin_size) * bin_size ≤ sub.length)
    (hp : p < (nb_marker / bin_size) * bin_size)
    (hbin : q / bin_size < p / bin_size)
    (hnd : ((geneList sub).take ((nb_marker / bin_size) * bin_size)).Nodup)
    (hmark : (geneList sub).getD p "" ∈ ms) :
    score_cell_type sub nb_marker bin_size ms
      ≤ score_cell_type (swapGenes sub p q) nb_marker bin_size ms := by
  have hqp : q < p := by
    by_contra hle
    push_neg at hle
    exact absurd (Nat.div_le_div_right (c := bin_size) hle) (not_le.mpr hbin)
  have hq : q < (nb_marker / bin_size) * bin_size := lt_trans hqp hp
  have hbs : 0 < bin_size := by
    rcases Nat.eq_zero_or_pos bin_size with h0 | h0
    · rw [h0, Nat.mul_zero] at hp
      exact absurd hp (Nat.not_lt_zero p)
    · exact h0
  have hpL : p < sub.length := lt_of_lt_of_le hp hlen
  have hqL : q < sub.length := lt_of_lt_of_le hq hlen
  have hG_len : (geneList sub).length = sub.length := by simp [geneList]
  have hkey := sum_bins_swap_le (geneList sub) bin_size (nb_marker / bin_size) ms p q
    ((geneList sub).getD p "") ((geneList sub).getD q "")
    hbs (by omega) hp hq hbin hnd rfl rfl hmark
  have hL : score_cell_type sub nb_marker bin_size ms
      = ∑ k in Finset.range (nb_marker / bin_size),
          (nb_marker / bin_size - k) * interCard ms (binG (geneList sub) bin_size k) := by
    rw [score_cell_type_eq_sum]
    exact Finset.sum_congr rfl (fun k _ => by rw [binGenes_eq_binG])
  have hRw : score_cell_type (swapGenes sub p q) nb_marker bin_size ms
      = ∑ k in Finset.range (nb_marker / bin_size),
          (nb_marker / bin_size - k) * interCard ms
            (binG (((geneList sub).set p ((geneList sub).getD q "")).set q
              ((geneList sub).getD p "")) bin_size k) := by
    rw [score_cell_type_eq_sum]
    exact Finset.sum_congr rfl (fun k _ => by
      rw [binGenes_eq_binG, geneList_swapGenes sub p q hpL hqL])
  rw [hL, hRw]
  exact hkey

/-- Witness for the amended claim C7: a two-row, two-bin table with
distinct genes `x, g` and bin size 1; moving the sole marker `g` from rank
1 (bin 1, weight 1) to rank 0 (bin 0, weight 2) raises the score from 1 to
2. -/
theorem move_to_earlier_bin_never_decreases_witness :
    ((2 / 1) * 1 ≤ (exTable ["x", "g"]).length ∧
      1 < (2 / 1) * 1 ∧ (0 : Nat) / 1 < (1 : Nat) / 1 ∧
      ((geneList (exTable ["x", "g"])).take ((2 / 1) * 1)).Nodup ∧
      (geneList (exTable ["x", "g"])).getD 1 "" ∈ ["g"]) ∧
    score_cell_type (exTable ["x", "g"]) 2 1 ["g"]
      ≤ score_cell_type (swapGenes (exTable ["x", "g"]) 1 0) 2 1 ["g"] ∧
    score_cell_type (exTable ["x", "g"]) 2 1 ["g"] = 1 ∧
    score_cell_type (swapGenes (exTable ["x", "g"]) 1 0) 2 1 ["g"] = 2 := by
  refine ⟨by decide, ?_, by decide, by decide⟩
  exact move_to_earlier_bin_never_decreases (exTable ["x", "g"]) 2 1 ["g"] 1 0
    (by decide) (by decide) (by decide) (by decide) (by decide)

end ScoreCT
